import Mathlib

/-!
Verification of the conversation-rendering and multi-agent-orchestration
logic of the azureai-assistant-tool repository.

The Python sources are shallowly embedded as executable Lean functions over
`List Char` (texts are ASCII in every property considered here, so Python's
`\s`, `\d` and `html.escape` are modelled on their ASCII behaviour).  Python
regular-expression scans (`re.sub`, `re.findall`, `re.search`) are embedded
as left-to-right scanners that try the pattern at each position and resume
after the end of a match, exactly as the `re` module does for these
patterns; since every match consumes at least one character, each scanner
carries a `Nat` fuel initialised to the length of its input, which makes it
structurally recursive (the fuel never runs out on the wrapper entry
points).
-/

/-- Convert a string literal to the character list the embedding works on. -/
def strL (s : String) : List Char := s.toList

/-- Python's `\s` on ASCII text: space, tab, newline, carriage return,
vertical tab, form feed. -/
def isWs (c : Char) : Bool :=
  c = ' ' || c = '\t' || c = '\n' || c = '\r' || c = '\x0b' || c = '\x0c'

/-- Match a literal `p` at the head of `l`; on success return the remainder. -/
def dropLit : List Char → List Char → Option (List Char)
  | [], l => some l
  | _ :: _, [] => none
  | p :: ps, c :: cs => if p = c then dropLit ps cs else none

theorem dropLit_eq_append {p : List Char} :
    ∀ {l r : List Char}, dropLit p l = some r → l = p ++ r := by
  induction p with
  | nil => intro l r h; simpa [dropLit] using h
  | cons q qs ih =>
    intro l r h
    cases l with
    | nil => simp [dropLit] at h
    | cons c cs =>
      simp only [dropLit] at h
      split at h
      · next heq => simpa [heq] using ih h
      · exact absurd h (by simp)

theorem dropLit_length {p l r : List Char} (h : dropLit p l = some r) :
    l.length = p.length + r.length := by
  have := dropLit_eq_append h
  simp [this]

/-- Does `pat` occur as a contiguous substring of `l`? -/
def hasSub (pat : List Char) : List Char → Bool
  | [] => pat.isEmpty
  | c :: cs => (dropLit pat (c :: cs)).isSome || hasSub pat cs

/-! ## `ConversationView.format_urls` (src/gui/conversation.py lines 308-318)

`re.sub(r'(https?://\S+)', replace_with_link, text)` where the replacement
wraps the matched token in an HTML anchor. -/

/-- Try the pattern `https?://\S+` at the head of `l`.  The literal scheme is
matched first ( "http://" and "https://" cannot both match at one position),
then `\S+` greedily takes the maximal nonempty run of non-whitespace. -/
def matchUrlAt (l : List Char) : Option (List Char × List Char) :=
  match dropLit (strL "https://") l with
  | some r =>
    let tok := r.takeWhile (fun c => !isWs c)
    if tok.isEmpty then none
    else some (strL "https://" ++ tok, r.drop tok.length)
  | none =>
    match dropLit (strL "http://") l with
    | some r =>
      let tok := r.takeWhile (fun c => !isWs c)
      if tok.isEmpty then none
      else some (strL "http://" ++ tok, r.drop tok.length)
    | none => none

/-- The replacement `f'<a href="{url}" style="color:blue;">{url}</a>'`. -/
def anchorHtml (url : List Char) : List Char :=
  strL "<a href=\"" ++ url ++ strL "\" style=\"color:blue;\">" ++ url ++ strL "</a>"

/-- Fuelled left-to-right scan of `re.sub` with the URL pattern. -/
def formatUrlsAux : Nat → List Char → List Char
  | 0, l => l
  | _ + 1, [] => []
  | fuel + 1, c :: cs =>
    match matchUrlAt (c :: cs) with
    | some (url, rest) => anchorHtml url ++ formatUrlsAux fuel rest
    | none => c :: formatUrlsAux fuel cs

/-- `ConversationView.format_urls`. -/
def formatUrls (l : List Char) : List Char := formatUrlsAux (l.length + 1) l

theorem matchUrlAt_none_of_no_scheme {l : List Char}
    (h1 : (dropLit (strL "http://") l).isSome = false)
    (h2 : (dropLit (strL "https://") l).isSome = false) :
    matchUrlAt l = none := by
  unfold matchUrlAt
  cases hs : dropLit (strL "https://") l with
  | some r => rw [hs] at h2; simp at h2
  | none =>
    cases hh : dropLit (strL "http://") l with
    | some r => rw [hh] at h1; simp at h1
    | none => rfl

theorem hasSub_false_elim {pat : List Char} {c : Char} {cs : List Char}
    (h : hasSub pat (c :: cs) = false) :
    (dropLit pat (c :: cs)).isSome = false ∧ hasSub pat cs = false := by
  simpa [hasSub, Bool.or_eq_false_iff] using h

/-- If the text nowhere contains an `http://` or `https://` token, the fuelled
URL scan copies it unchanged. -/
theorem formatUrlsAux_id {fuel : Nat} :
    ∀ {l : List Char}, l.length ≤ fuel →
    hasSub (strL "http://") l = false → hasSub (strL "https://") l = false →
    formatUrlsAux fuel l = l := by
  induction fuel with
  | zero => intro l _ _ _; rfl
  | succ n ih =>
    intro l hlen h1 h2
    cases l with
    | nil => rfl
    | cons c cs =>
      obtain ⟨h1a, h1b⟩ := hasSub_false_elim h1
      obtain ⟨h2a, h2b⟩ := hasSub_false_elim h2
      have hm : matchUrlAt (c :: cs) = none := matchUrlAt_none_of_no_scheme h1a h2a
      have hlen' : cs.length ≤ n := by simpa using Nat.le_of_succ_le_succ hlen
      simp only [formatUrlsAux, hm]
      rw [ih hlen' h1b h2b]

/-- Claim C2 (counterexample): `format_urls` is not idempotent on its own
output.  Linkifying `"http://x"` once yields an anchor, and a second pass
re-matches the URL inside the `href` attribute and inside the anchor body
(`\S+` also matches `"` and `<`), wrapping them again. -/
theorem c2_format_urls_not_idempotent :
    formatUrls (formatUrls (strL "http://x")) ≠ formatUrls (strL "http://x") := by
  decide

/-- Claim C2 (amended): `format_urls` leaves unchanged every text that
contains no `http://` and no `https://` occurrence (in particular non-URL
text and already-escaped HTML without URL tokens); but it is not idempotent
on linkified text, because the pattern `https?://\S+` re-matches the URL
inside the emitted `href="..."` attribute and anchor body. -/
theorem c2_format_urls_no_token_unchanged (l : List Char)
    (h1 : hasSub (strL "http://") l = false)
    (h2 : hasSub (strL "https://") l = false) :
    formatUrls l = l :=
  formatUrlsAux_id (Nat.le_succ_of_le le_rfl) h1 h2

/-- Witness for C2 (amended) at a concrete input. -/
theorem c2_format_urls_no_token_unchanged_witness :
    formatUrls (strL "see the &lt;output&gt; below") = strL "see the &lt;output&gt; below" :=
  c2_format_urls_no_token_unchanged (strL "see the &lt;output&gt; below")
    (by decide) (by decide)

/-! ## `ConversationView.parse_message` (src/gui/conversation.py lines 358-379)

`message.split("```")` followed by per-part processing: parts at odd indices
are code; a multi-line code part has its first line (the language tag)
dropped via `part.split('\n', 1)`, and the kept code is `strip('\n')`-ed. -/

/-- Find the leftmost occurrence of the (nonempty) separator `sep` in `l`,
returning the text before it and the remainder after it. -/
def findSep (sep : List Char) : List Char → Option (List Char × List Char)
  | [] => if sep.isEmpty then some ([], []) else none
  | c :: cs =>
    match dropLit sep (c :: cs) with
    | some rest => some ([], rest)
    | none => (findSep sep cs).map (fun p => (c :: p.1, p.2))

/-- Fuelled body of Python `str.split(sep)` for a nonempty separator. -/
def pySplitAux (sep : List Char) : Nat → List Char → List (List Char)
  | 0, l => [l]
  | fuel + 1, l =>
    match findSep sep l with
    | none => [l]
    | some (before, after) => before :: pySplitAux sep fuel after

/-- Python `str.split(sep)` (all occurrences, nonempty separator). -/
def pySplit (sep l : List Char) : List (List Char) :=
  if sep.isEmpty then [l] else pySplitAux sep (l.length + 1) l

/-- Python `str.split(c, 1)`: split at the first occurrence of `c` only. -/
def splitOnce (c : Char) (l : List Char) : List (List Char) :=
  match l.dropWhile (fun d => d != c) with
  | [] => [l.takeWhile (fun d => d != c)]
  | _ :: rest => [l.takeWhile (fun d => d != c), rest]

/-- Python `str.strip('\n')`: drop newlines from both ends. -/
def stripNl (l : List Char) : List Char :=
  ((l.dropWhile (fun c => c = '\n')).reverse.dropWhile (fun c => c = '\n')).reverse

/-- `ConversationView.parse_message`: split on triple-backtick fences and
mark odd-position parts as code, dropping a multi-line code part's leading
language line. -/
def parseMessage (message : List Char) : List (Bool × List Char) :=
  (pySplit (strL "```") message).enum.map (fun p =>
    if p.1 % 2 ≠ 0 then
      match splitOnce '\n' p.2 with
      | [_, code] => (true, stripNl code)
      | _ => (true, stripNl p.2)
    else (false, p.2))

/-- The spec's reading of a code part: strip the leading language-tag line
(everything up to and including the first newline) when one is present. -/
def dropLangLine (part : List Char) : List Char :=
  match part.dropWhile (fun d => d != '\n') with
  | [] => part
  | _ :: rest => rest

/-- `parse_message` as the spec words it: split on triple-backtick fences,
parts at odd split positions are code with the leading language-tag line
stripped and discarded, parts at even positions are prose. -/
def parseMessageSpec (message : List Char) : List (Bool × List Char) :=
  (pySplit (strL "```") message).enum.map (fun p =>
    if p.1 % 2 = 1 then (true, stripNl (dropLangLine p.2)) else (false, p.2))

theorem map_eq_of_eq_on {α β : Type} {f g : α → β} :
    ∀ {l : List α}, (∀ a ∈ l, f a = g a) → l.map f = l.map g := by
  intro l
  induction l with
  | nil => intro _; rfl
  | cons x xs ih =>
    intro h
    simp only [List.map_cons, h x (List.mem_cons_self x xs),
      ih (fun a ha => h a (List.mem_cons_of_mem x ha))]

/-- Claim C4: `parse_message "a ```print(1)``` b"` yields exactly
`[(False,"a "), (True,"print(1)"), (False," b")]`; and in general the text
is split on triple-backtick fences, odd split positions are code, and the
leading language-tag line of a multi-line code part is stripped and
discarded (`parse_message` coincides with the spec's description). -/
theorem c4_parse_message :
    parseMessage (strL "a ```print(1)``` b") =
      [(false, strL "a "), (true, strL "print(1)"), (false, strL " b")] ∧
    ∀ msg : List Char, parseMessage msg = parseMessageSpec msg := by
  constructor
  · decide
  · intro msg
    unfold parseMessage parseMessageSpec
    apply map_eq_of_eq_on
    intro p _
    rcases Nat.mod_two_eq_zero_or_one p.1 with h | h
    · simp [h]
    · have hne : p.1 % 2 ≠ 0 := by omega
      cases hd : p.2.dropWhile (fun d => d != '\n') with
      | nil => simp [splitOnce, dropLangLine, hd, h, hne]
      | cons d rest => simp [splitOnce, dropLangLine, hd, h, hne]

/-! ## `html.escape` and `ConversationView.append_message_chunk`
(src/gui/conversation.py lines 287-306)

The widget state is modelled as the list of HTML fragments appended so far,
concatenated; `append_message_chunk` appends a bold sender label only when
`is_start_of_message` is true, then the escaped chunk wrapped in a span. -/

/-- `html.escape(_, quote=True)` on one character. -/
def escChar (c : Char) : List Char :=
  if c = '&' then strL "&amp;"
  else if c = '<' then strL "&lt;"
  else if c = '>' then strL "&gt;"
  else if c = '"' then strL "&quot;"
  else if c = '\x27' then strL "&#x27;"
  else [c]

/-- `html.escape` with `quote=True` (the default), character by character;
the sequential `str.replace` passes of the library function never rewrite
each other's output, so this is equivalent. -/
def htmlEscape (l : List Char) : List Char :=
  l.foldr (fun c acc => escChar c ++ acc) []

/-- `f"<b style='color:black;'>{html.escape(sender)}:</b> "`. -/
def senderHtml (sender : List Char) : List Char :=
  strL "<b style=\x27color:black;\x27>" ++ htmlEscape sender ++ strL ":</b> "

/-- `f"<span class='text-block' style='white-space: pre-wrap;'>{t}</span>"`. -/
def spanHtml (content : List Char) : List Char :=
  strL "<span class=\x27text-block\x27 style=\x27white-space: pre-wrap;\x27>"
    ++ content ++ strL "</span>"

/-- `ConversationView.append_message_chunk`, as the transformation it
performs on the accumulated document text. -/
def appendMessageChunk (doc sender chunk : List Char) (isStart : Bool) : List Char :=
  doc ++ (if isStart then senderHtml sender else []) ++ spanHtml (htmlEscape chunk)

theorem htmlEscape_nil : htmlEscape [] = [] := rfl

theorem htmlEscape_cons (c : Char) (l : List Char) :
    htmlEscape (c :: l) = escChar c ++ htmlEscape l := rfl

theorem nl_not_mem_escChar {c : Char} (h : c ≠ '\n') : '\n' ∉ escChar c := by
  unfold escChar
  split
  · decide
  · split
    · decide
    · split
      · decide
      · split
        · decide
        · split
          · decide
          · simpa using fun he => h he.symm

theorem nl_not_mem_htmlEscape {l : List Char} (h : '\n' ∉ l) :
    '\n' ∉ htmlEscape l := by
  induction l with
  | nil => simp [htmlEscape_nil]
  | cons c cs ih =>
    rw [htmlEscape_cons]
    intro hmem
    rcases List.mem_append.1 hmem with hc | hcs
    · exact nl_not_mem_escChar (fun he => h (by simp [he])) hc
    · exact ih (fun hm => h (List.mem_cons_of_mem c hm)) hcs

/-- Claim C9: three `append_message_chunk` calls with
`is_start = true, false, false` append exactly one sender label (it is
emitted only by the first call; the non-start calls append only the escaped
chunk's span) followed by the three escaped chunks in order, and — provided
sender and chunks contain no newline — no newline at all is inserted
between or around the chunks. -/
theorem c9_append_message_chunk_stream
    (doc sender c1 c2 c3 : List Char)
    (hs : '\n' ∉ sender) (h1 : '\n' ∉ c1) (h2 : '\n' ∉ c2) (h3 : '\n' ∉ c3) :
    appendMessageChunk
        (appendMessageChunk (appendMessageChunk doc sender c1 true) sender c2 false)
        sender c3 false
      = doc ++ (senderHtml sender ++ (spanHtml (htmlEscape c1)
          ++ (spanHtml (htmlEscape c2) ++ spanHtml (htmlEscape c3)))) ∧
    appendMessageChunk (appendMessageChunk doc sender c1 true) sender c2 false
      = appendMessageChunk doc sender c1 true ++ spanHtml (htmlEscape c2) ∧
    appendMessageChunk
        (appendMessageChunk (appendMessageChunk doc sender c1 true) sender c2 false)
        sender c3 false
      = appendMessageChunk (appendMessageChunk doc sender c1 true) sender c2 false
          ++ spanHtml (htmlEscape c3) ∧
    '\n' ∉ senderHtml sender ++ (spanHtml (htmlEscape c1)
          ++ (spanHtml (htmlEscape c2) ++ spanHtml (htmlEscape c3))) := by
  refine ⟨by simp [appendMessageChunk, List.append_assoc], by simp [appendMessageChunk],
    by simp [appendMessageChunk], ?_⟩
  intro hmem
  have hsender : '\n' ∉ senderHtml sender := by
    intro hm
    unfold senderHtml at hm
    rcases List.mem_append.1 hm with hm1 | hm2
    · rcases List.mem_append.1 hm1 with hm3 | hm4
      · revert hm3; decide
      · exact nl_not_mem_htmlEscape hs hm4
    · revert hm2; decide
  have hspan : ∀ {c : List Char}, '\n' ∉ c → '\n' ∉ spanHtml (htmlEscape c) := by
    intro c hc hm
    unfold spanHtml at hm
    rcases List.mem_append.1 hm with hm1 | hm2
    · rcases List.mem_append.1 hm1 with hm3 | hm4
      · revert hm3; decide
      · exact nl_not_mem_htmlEscape hc hm4
    · revert hm2; decide
  rcases List.mem_append.1 hmem with hm | hm
  · exact hsender hm
  rcases List.mem_append.1 hm with hm | hm
  · exact hspan h1 hm
  rcases List.mem_append.1 hm with hm | hm
  · exact hspan h2 hm
  · exact hspan h3 hm

/-- Witness for C9 at concrete inputs. -/
theorem c9_append_message_chunk_stream_witness :
    appendMessageChunk
        (appendMessageChunk
          (appendMessageChunk (strL "D") (strL "Bot") (strL "Hel") true)
          (strL "Bot") (strL "lo <") false)
        (strL "Bot") (strL "world") false
      = strL "D" ++ (senderHtml (strL "Bot") ++ (spanHtml (htmlEscape (strL "Hel"))
          ++ (spanHtml (htmlEscape (strL "lo <")) ++ spanHtml (htmlEscape (strL "world"))))) ∧
    appendMessageChunk
        (appendMessageChunk (strL "D") (strL "Bot") (strL "Hel") true)
        (strL "Bot") (strL "lo <") false
      = appendMessageChunk (strL "D") (strL "Bot") (strL "Hel") true
          ++ spanHtml (htmlEscape (strL "lo <")) ∧
    appendMessageChunk
        (appendMessageChunk
          (appendMessageChunk (strL "D") (strL "Bot") (strL "Hel") true)
          (strL "Bot") (strL "lo <") false)
        (strL "Bot") (strL "world") false
      = appendMessageChunk
          (appendMessageChunk (strL "D") (strL "Bot") (strL "Hel") true)
          (strL "Bot") (strL "lo <") false
          ++ spanHtml (htmlEscape (strL "world")) ∧
    '\n' ∉ senderHtml (strL "Bot") ++ (spanHtml (htmlEscape (strL "Hel"))
          ++ (spanHtml (htmlEscape (strL "lo <")) ++ spanHtml (htmlEscape (strL "world")))) :=
  c9_append_message_chunk_stream (strL "D") (strL "Bot") (strL "Hel") (strL "lo <")
    (strL "world") (by decide) (by decide) (by decide) (by decide)

/-! ## Association-list model of a Python `dict`

Keys are unique; assignment overwrites in place or appends; `len` is the
list length; `get` returns the value or nothing. -/

def assocLookup {α β : Type} [DecidableEq α] : List (α × β) → α → Option β
  | [], _ => none
  | p :: ps, k => if p.1 = k then some p.2 else assocLookup ps k

def setAssoc {α β : Type} [DecidableEq α] : List (α × β) → α → β → List (α × β)
  | [], k, v => [(k, v)]
  | p :: ps, k, v => if p.1 = k then (k, v) :: ps else p :: setAssoc ps k v

def assocHasKey {α β : Type} [DecidableEq α] (l : List (α × β)) (k : α) : Bool :=
  (assocLookup l k).isSome

theorem assocLookup_setAssoc_self {α β : Type} [DecidableEq α]
    (m : List (α × β)) (k : α) (v : β) :
    assocLookup (setAssoc m k v) k = some v := by
  induction m with
  | nil => simp [setAssoc, assocLookup]
  | cons p ps ih =>
    by_cases h : p.1 = k
    · simp [setAssoc, assocLookup, h]
    · simp [setAssoc, assocLookup, h, ih]

/-! ## `ConversationView.format_file_links` (src/gui/conversation.py lines 320-356)

Three regex passes over the text:
1. `re.findall(r'\[(\d+)\]\s*(.+)', text)` builds `citation_to_filename`;
2. `re.sub(r'\[([^\]]+)\]\(\s*\[(\d+)\]\s*\)', replace_with_clickable_text, text)`
   resolves citation markers (the callback returns `None` — a `TypeError`
   from `re.sub` — when the referenced index has no entry in the map);
3. `re.sub(r'\[\d+\]\s*[^ ]+\.png', '', ...)` deletes raw definition lines.

All backtracking in these patterns is resolved deterministically below,
following the `re` engine's greedy/lazy priorities. -/

/-- Try `\[(\d+)\]\s*(.+)` at the head of `l`.  `\s*` is greedy; when the
whole tail after `]` is whitespace the engine backtracks until `.+` can take
at least one non-newline character (which is then the last non-newline
character of the tail).  Returns `((index, filename), rest-after-match)`. -/
def matchDefAt (l : List Char) : Option ((List Char × List Char) × List Char) :=
  match l with
  | '[' :: r1 =>
    let ds := r1.takeWhile Char.isDigit
    if ds.isEmpty then none
    else
      match r1.drop ds.length with
      | ']' :: r3 =>
        let k := (r3.takeWhile isWs).length
        if k < r3.length then
          let rest0 := r3.drop k
          let fname := rest0.takeWhile (fun c => c != '\n')
          some ((ds, fname), rest0.drop fname.length)
        else
          let rev := r3.reverse
          let nls := rev.takeWhile (fun c => c = '\n')
          match rev.drop nls.length with
          | [] => none
          | c :: _ => some ((ds, [c]), nls.reverse)
      | _ => none
  | _ => none

/-- Fuelled `re.findall` scan with the definition pattern. -/
def findAllDefsAux : Nat → List Char → List (List Char × List Char)
  | 0, _ => []
  | _ + 1, [] => []
  | fuel + 1, c :: cs =>
    match matchDefAt (c :: cs) with
    | some (pair, rest) => pair :: findAllDefsAux fuel rest
    | none => findAllDefsAux fuel cs

def findAllDefs (l : List Char) : List (List Char × List Char) :=
  findAllDefsAux (l.length + 1) l

/-- `for index, filename in file_citations: citation_to_filename[index] = filename`. -/
def buildMap (ps : List (List Char × List Char)) : List (List Char × List Char) :=
  ps.foldl (fun m p => setAssoc m p.1 p.2) []

/-- Try `\[([^\]]+)\]\(\s*\[(\d+)\]\s*\)` at the head of `l` (every step of
this pattern is deterministic).  Returns `((label, index), rest)`. -/
def matchMarkerAt (l : List Char) : Option ((List Char × List Char) × List Char) :=
  match l with
  | '[' :: r1 =>
    let lab := r1.takeWhile (fun c => c != ']')
    if lab.isEmpty then none
    else
      match r1.drop lab.length with
      | ']' :: '(' :: r2 =>
        match r2.drop ((r2.takeWhile isWs).length) with
        | '[' :: r3 =>
          let ds := r3.takeWhile Char.isDigit
          if ds.isEmpty then none
          else
            match r3.drop ds.length with
            | ']' :: r4 =>
              match r4.drop ((r4.takeWhile isWs).length) with
              | ')' :: r5 => some ((lab, ds), r5)
              | _ => none
            | _ => none
        | _ => none
      | _ => none
  | _ => none

/-- `self.file_path` of the view: the relative output directory. -/
def outDir : List Char := strL "output"

/-- `posixpath.join` for two components. -/
def pyJoin (a b : List Char) : List Char :=
  if b.head? = some '/' then b
  else if a.isEmpty || a.getLast? = some '/' then a ++ b
  else a ++ '/' :: b

/-- The number of leading slashes `posixpath.normpath` preserves. -/
def leadSlashes (p : List Char) : Nat :=
  match p with
  | '/' :: '/' :: '/' :: _ => 1
  | '/' :: '/' :: _ => 2
  | '/' :: _ => 1
  | _ => 0

/-- `posixpath.normpath`. -/
def normPath (p : List Char) : List Char :=
  if p.isEmpty then ['.']
  else
    let slashes := leadSlashes p
    let comps := pySplit ['/'] p
    let newComps := comps.foldl (fun acc comp =>
      if comp = [] ∨ comp = ['.'] then acc
      else if comp ≠ ['.', '.'] ∨ (slashes = 0 ∧ acc = []) ∨
              acc.getLast? = some ['.', '.'] then acc ++ [comp]
      else if acc ≠ [] then acc.dropLast
      else acc) []
    let res := List.replicate slashes '/' ++ List.intercalate ['/'] newComps
    if res.isEmpty then ['.'] else res

/-- The two inline-block divs emitted by `replace_with_clickable_text`. -/
def clickHtml (path fname key : List Char) : List Char :=
  strL "<div style=\"display: inline-block;\"><a href=\"" ++ path
    ++ strL "\" style=\"color:green; text-decoration: underline;\" download=\"" ++ fname
    ++ strL "\">" ++ key
    ++ strL "</a></div><div style=\"display: inline-block; color:gray;\">"
    ++ path ++ strL "</div>"

/-- `replace_with_clickable_text` on one match: `none` models the Python
callback falling through its `if file_name:` guard and returning `None`
(which `re.sub` treats as an empty replacement).  On success it returns the
HTML replacement and the updated `text_to_url_map` (paths are stored bare
here; the source wraps them as singleton dicts keyed by `"path"`). -/
def replaceWithClickable (defs m : List (List Char × List Char)) (lab ds : List Char) :
    Option (List Char × List (List Char × List Char)) :=
  match assocLookup defs ds with
  | none => none
  | some fname =>
    let path := normPath (pyJoin outDir fname)
    let key := if assocHasKey m lab then lab ++ ' ' :: Nat.toDigits 10 (m.length + 1)
               else lab
    some (clickHtml path fname key, setAssoc m key path)

/-- Fuelled `re.sub` scan with the citation-marker pattern and the stateful
callback; a `None` from the callback is an empty replacement (CPython's
`re.sub` skips `None` items when assembling the result). -/
def subMarkersAux (defs : List (List Char × List Char)) :
    Nat → List Char → List (List Char × List Char) →
    List Char × List (List Char × List Char)
  | 0, l, m => (l, m)
  | _ + 1, [], m => ([], m)
  | fuel + 1, c :: cs, m =>
    match matchMarkerAt (c :: cs) with
    | some ((lab, ds), rest) =>
      match replaceWithClickable defs m lab ds with
      | none => subMarkersAux defs fuel rest m
      | some (html, m') =>
        let p := subMarkersAux defs fuel rest m'
        (html ++ p.1, p.2)
    | none =>
      let p := subMarkersAux defs fuel cs m
      (c :: p.1, p.2)

/-- `[^ ]+\.png` at the head of `r`, greedy: try the longest body first
(`b` counts body characters, starting from the full maximal non-space run),
requiring the literal `.png` right after it.  Returns the rest after the
match. -/
def bodySearch (r : List Char) : Nat → Option (List Char)
  | 0 => none
  | b + 1 =>
    match dropLit (strL ".png") (r.drop (b + 1)) with
    | some rest => some rest
    | none => bodySearch r b

/-- One `\s*` split choice: consume `k` whitespace characters, then match
`[^ ]+\.png` greedily. -/
def tryPngAt (r3 : List Char) (k : Nat) : Option (List Char) :=
  let r := r3.drop k
  bodySearch r ((r.takeWhile (fun c => c != ' ')).length)

/-- Backtracking for `\s*[^ ]+\.png`: `\s*` is greedy, so try the longest
whitespace prefix first and shrink on failure. -/
def wsSearch (r3 : List Char) : Nat → Option (List Char)
  | 0 => tryPngAt r3 0
  | k + 1 =>
    match tryPngAt r3 (k + 1) with
    | some rest => some rest
    | none => wsSearch r3 k

/-- Try `\[\d+\]\s*[^ ]+\.png` at the head of `l`. -/
def matchPngDefAt (l : List Char) : Option (List Char) :=
  match l with
  | '[' :: r1 =>
    let ds := r1.takeWhile Char.isDigit
    if ds.isEmpty then none
    else
      match r1.drop ds.length with
      | ']' :: r3 => wsSearch r3 ((r3.takeWhile isWs).length)
      | _ => none
  | _ => none

/-- Fuelled `re.sub(..., '')` scan deleting raw `.png` definition lines. -/
def removePngDefsAux : Nat → List Char → List Char
  | 0, l => l
  | _ + 1, [] => []
  | fuel + 1, c :: cs =>
    match matchPngDefAt (c :: cs) with
    | some rest => removePngDefsAux fuel rest
    | none => c :: removePngDefsAux fuel cs

/-- `ConversationView.format_file_links`: returns the rewritten text and
the updated `text_to_url_map`. -/
def formatFileLinks (m : List (List Char × List Char)) (text : List Char) :
    List Char × List (List Char × List Char) :=
  let ctf := buildMap (findAllDefs text)
  let p := subMarkersAux ctf (text.length + 1) text m
  (removePngDefsAux (p.1.length + 1) p.1, p.2)

set_option maxRecDepth 10000 in
/-- Claim C3 (counterexample): on a text whose marker `[ref]([0])`
references an index with no usable definition — the definition scan
swallows the whole line as the filename of index 1, so index 0 stays
undefined — the marker is NOT left unresolved in the output: the callback
returns `None`, `re.sub` treats that as an empty replacement, and the
marker is silently deleted, so the returned text differs from the input. -/
theorem c3_unresolved_marker_not_preserved :
    formatFileLinks [] (strL "[1] a [ref]([0])") = (strL "[1] a ", []) ∧
    (formatFileLinks [] (strL "[1] a [ref]([0])")).1 ≠ strL "[1] a [ref]([0])" := by
  exact ⟨by decide, by decide⟩

/-- Claim C3 (amended): for a citation marker whose index has no entry in
the definitions map, `format_file_links` emits no link, stores nothing in
the url map, and returns without error — but the marker is removed from
the output (replaced by the empty string) rather than left unresolved; the
text around the marker is processed as usual. -/
theorem c3_unresolved_marker_removed
    (defs m : List (List Char × List Char)) (lab ds rest : List Char)
    (l : List Char) (fuel : Nat)
    (hmark : matchMarkerAt l = some ((lab, ds), rest))
    (hds : assocLookup defs ds = none) :
    replaceWithClickable defs m lab ds = none ∧
    subMarkersAux defs (fuel + 1) l m = subMarkersAux defs fuel rest m := by
  have hrc : replaceWithClickable defs m lab ds = none := by
    simp [replaceWithClickable, hds]
  refine ⟨hrc, ?_⟩
  cases l with
  | nil => simp [matchMarkerAt] at hmark
  | cons c cs => simp [subMarkersAux, hmark, hrc]

/-- Witness for C3 (amended) at a concrete marker and definition map. -/
theorem c3_unresolved_marker_removed_witness :
    replaceWithClickable [(strL "1", strL "a.png")] [] (strL "ref") (strL "0")
      = none ∧
    subMarkersAux [(strL "1", strL "a.png")] 3 (strL "[ref]([0])") []
      = subMarkersAux [(strL "1", strL "a.png")] 2 [] [] :=
  c3_unresolved_marker_removed [(strL "1", strL "a.png")] [] (strL "ref")
    (strL "0") [] (strL "[ref]([0])") 2 (by decide) (by decide)

set_option maxRecDepth 40000 in
/-- Claim C5: with the marker first and the definition line second, the
marker is replaced by the clickable link to the normalized joined path
`output/chart.png` plus the visible gray path, and the raw
`[0] chart.png` definition line is removed from the returned text. -/
theorem c5_resolved_marker_link :
    formatFileLinks [] (strL "[See chart]([0])\n[0] chart.png") =
      (strL "<div style=\"display: inline-block;\"><a href=\"output/chart.png\" style=\"color:green; text-decoration: underline;\" download=\"chart.png\">See chart</a></div><div style=\"display: inline-block; color:gray;\">output/chart.png</div>\n",
        [(strL "See chart", strL "output/chart.png")]) := by decide

/-- Claim C6: when the same label is resolved for two citation indices in
one render, the first resolution stores the bare label and the second
stores the label suffixed with the counter `len(map) + 1`, a key distinct
from the first, so the two resolutions occupy two distinct map keys. -/
theorem c6_repeated_label_two_keys
    (defs m : List (List Char × List Char)) (lab ds1 ds2 fn1 fn2 : List Char)
    (h1 : assocLookup defs ds1 = some fn1) (h2 : assocLookup defs ds2 = some fn2)
    (hm : assocHasKey m lab = false) :
    ∃ p1 p2 key2,
      replaceWithClickable defs m lab ds1
        = some (clickHtml p1 fn1 lab, setAssoc m lab p1) ∧
      replaceWithClickable defs (setAssoc m lab p1) lab ds2
        = some (clickHtml p2 fn2 key2, setAssoc (setAssoc m lab p1) key2 p2) ∧
      key2 = lab ++ ' ' :: Nat.toDigits 10 ((setAssoc m lab p1).length + 1) ∧
      key2 ≠ lab := by
  refine ⟨normPath (pyJoin outDir fn1), normPath (pyJoin outDir fn2),
    lab ++ ' ' :: Nat.toDigits 10 ((setAssoc m lab (normPath (pyJoin outDir fn1))).length + 1),
    ?_, ?_, rfl, ?_⟩
  · simp [replaceWithClickable, h1, hm]
  · have hk : assocHasKey (setAssoc m lab (normPath (pyJoin outDir fn1))) lab = true := by
      simp [assocHasKey, assocLookup_setAssoc_self]
    simp [replaceWithClickable, h2, hk]
  · intro he
    have hlen := congrArg List.length he
    simp [List.length_append] at hlen

/-- Witness for C6 at concrete inputs. -/
theorem c6_repeated_label_two_keys_witness :
    ∃ p1 p2 key2,
      replaceWithClickable [(strL "0", strL "a.png"), (strL "1", strL "b.png")] []
          (strL "x") (strL "0")
        = some (clickHtml p1 (strL "a.png") (strL "x"), setAssoc [] (strL "x") p1) ∧
      replaceWithClickable [(strL "0", strL "a.png"), (strL "1", strL "b.png")]
          (setAssoc [] (strL "x") p1) (strL "x") (strL "1")
        = some (clickHtml p2 (strL "b.png") key2,
            setAssoc (setAssoc [] (strL "x") p1) key2 p2) ∧
      key2 = strL "x" ++ ' ' :: Nat.toDigits 10 ((setAssoc [] (strL "x") p1).length + 1) ∧
      key2 ≠ strL "x" :=
  c6_repeated_label_two_keys
    [(strL "0", strL "a.png"), (strL "1", strL "b.png")] [] (strL "x")
    (strL "0") (strL "1") (strL "a.png") (strL "b.png")
    (by decide) (by decide) (by decide)

/-! ## `extract_json_code_block` and `requires_user_confirmation`
(src/samples/MultiAgentCodeOrchestration/main.py lines 132-152)

Both use the pattern `r"```json\n([\s\S]*?)\n```"`: an opening fence with a
`json` tag, a lazily-matched body, and a closing fence.  `[\s\S]*?` is lazy,
so the body extends to the first following `"\n```"`. -/

/-- The literal opening fence of a tagged JSON block. -/
def jsonOpen : List Char := strL "```json\n"

/-- The literal closing fence. -/
def closeFence : List Char := strL "\n```"

/-- Skip to just past the first occurrence of the closing fence. -/
def findClose : List Char → Option (List Char)
  | [] => none
  | c :: cs =>
    match dropLit closeFence (c :: cs) with
    | some r => some r
    | none => findClose cs

/-- Split at the first occurrence of the closing fence: lazily matched body
and the remainder after the fence. -/
def splitClose : List Char → Option (List Char × List Char)
  | [] => none
  | c :: cs =>
    match dropLit closeFence (c :: cs) with
    | some r => some ([], r)
    | none => (splitClose cs).map (fun p => (c :: p.1, p.2))

/-- `re.search` with the JSON-block pattern: the first position where the
opening fence matches and a closing fence follows; returns group 1. -/
def findJsonBlock : List Char → Option (List Char)
  | [] => none
  | c :: cs =>
    match dropLit jsonOpen (c :: cs) with
    | some r8 =>
      match splitClose r8 with
      | some (content, _) => some content
      | none => findJsonBlock cs
    | none => findJsonBlock cs

/-- `extract_json_code_block`: the first JSON block's content, or the
original text when no such block exists. -/
def extractJsonCodeBlock (t : List Char) : List Char :=
  match findJsonBlock t with
  | some content => content
  | none => t

/-- Fuelled `re.sub(..., "")` scan deleting every JSON fenced block. -/
def stripJsonBlocksAux : Nat → List Char → List Char
  | 0, l => l
  | _ + 1, [] => []
  | fuel + 1, c :: cs =>
    match dropLit jsonOpen (c :: cs) with
    | some r8 =>
      match findClose r8 with
      | some rest => stripJsonBlocksAux fuel rest
      | none => c :: stripJsonBlocksAux fuel cs
    | none => c :: stripJsonBlocksAux fuel cs

/-- The text with every ```` ```json ```` fenced block removed (the
`re.sub` inside `requires_user_confirmation`). -/
def stripJsonBlocks (t : List Char) : List Char :=
  stripJsonBlocksAux (t.length + 1) t

/-- `requires_user_confirmation`: remove the JSON fenced blocks, then test
whether a `?` remains. -/
def requiresUserConfirmation (t : List Char) : Bool :=
  (stripJsonBlocks t).contains '?'

/-- What one iteration of the `main` loop does with a planner reply once
the reply text is in hand (src/samples/MultiAgentCodeOrchestration/main.py
lines 173-184): a confirmation-requiring reply is skipped by `continue`; a
reply whose extracted task list fails JSON parsing is skipped by the
`except json.JSONDecodeError: continue` handler; otherwise the parsed task
batch is scheduled.  The external `json.loads` is abstracted as a `parse`
function returning `none` on failure. -/
inductive IterationOutcome (α : Type) where
  | scheduled (tasks : α)
  | skippedConfirmation
  | skippedParseError
deriving DecidableEq

def mainIteration {α : Type} (parse : List Char → Option α) (resp : List Char) :
    IterationOutcome α :=
  if requiresUserConfirmation resp then .skippedConfirmation
  else
    match parse (extractJsonCodeBlock resp) with
    | some ts => .scheduled ts
    | none => .skippedParseError

theorem contains_of_mem {l : List Char} {c : Char} (h : c ∈ l) :
    l.contains c = true := by
  induction l with
  | nil => cases h
  | cons d ds ih =>
    rcases List.mem_cons.1 h with rfl | hm
    · simp [List.contains_cons]
    · simp only [List.contains_cons, ih hm, Bool.or_true]

/-- Claim C7: a planner reply with a literal `?` outside every JSON fenced
block (that is, a `?` surviving the removal of all fenced blocks) makes
`requires_user_confirmation` return true, and the main loop then skips the
iteration without scheduling a task batch. -/
theorem c7_question_mark_requires_confirmation {α : Type}
    (parse : List Char → Option α) (t : List Char)
    (h : '?' ∈ stripJsonBlocks t) :
    requiresUserConfirmation t = true ∧
    mainIteration parse t = IterationOutcome.skippedConfirmation := by
  have hc : requiresUserConfirmation t = true := contains_of_mem h
  exact ⟨hc, by simp [mainIteration, hc]⟩

/-- Witness for C7 at a concrete reply: the `?` sits outside the fenced
block, which itself contains no `?`. -/
theorem c7_question_mark_requires_confirmation_witness :
    requiresUserConfirmation (strL "Proceed? ```json\n[1]\n``` ok") = true ∧
    mainIteration (fun _ => (none : Option Unit)) (strL "Proceed? ```json\n[1]\n``` ok")
      = IterationOutcome.skippedConfirmation :=
  c7_question_mark_requires_confirmation (fun _ => (none : Option Unit))
    (strL "Proceed? ```json\n[1]\n``` ok") (by decide)

/-- Claim C8: when the reply contains no JSON fenced block,
`extract_json_code_block` returns the raw reply unchanged (so the raw text
is what gets parsed as the task list); and when JSON parsing of the
extracted task list fails, the iteration is aborted — by the confirmation
check or by the silently-swallowed `JSONDecodeError` — and no task batch is
scheduled.  Both paths are ordinary returns: no exception reaches `main`'s
caller (the embedding is a total function). -/
theorem c8_no_block_raw_text_and_parse_failure_skips {α : Type}
    (parse : List Char → Option α) (t : List Char)
    (hnb : findJsonBlock t = none)
    (hp : parse (extractJsonCodeBlock t) = none) :
    extractJsonCodeBlock t = t ∧
    (mainIteration parse t = IterationOutcome.skippedConfirmation ∨
     mainIteration parse t = IterationOutcome.skippedParseError) := by
  refine ⟨by simp [extractJsonCodeBlock, hnb], ?_⟩
  by_cases hc : requiresUserConfirmation t
  · exact Or.inl (by simp [mainIteration, hc])
  · exact Or.inr (by simp [mainIteration, hc, hp])

/-- Witness for C8 at a concrete reply with no fenced block and a failing
parse. -/
theorem c8_no_block_raw_text_and_parse_failure_skips_witness :
    extractJsonCodeBlock (strL "just prose, no fence") = strL "just prose, no fence" ∧
    (mainIteration (fun _ => (none : Option Unit)) (strL "just prose, no fence")
        = IterationOutcome.skippedConfirmation ∨
     mainIteration (fun _ => (none : Option Unit)) (strL "just prose, no fence")
        = IterationOutcome.skippedParseError) :=
  c8_no_block_raw_text_and_parse_failure_skips (fun _ => (none : Option Unit))
    (strL "just prose, no fence") (by decide) (by decide)

/-! ## `MultiAgentOrchestrator` (src/samples/MultiAgentCodeOrchestration/main.py lines 17-101)

The orchestrator's relevant state is `task_completion_events` (a dict from
schedule id to an asyncio `Event`, modelled as an association list from
`Nat` to the event's set-flag), `task_started`, and the single condition
variable's lock.  Execution is a single-threaded cooperative scheduler:
steps interleave only at `await` points, so each callback body and each
segment of `wait_for_all_tasks` between awaits is one atomic transition.
`everStarted` is a history variable recording that `task_started` was
observed true at some point; the Python code has no such field. -/

/-- The control point of the single `wait_for_all_tasks` caller:
not yet called / holding the lock about to test `task_started` /
suspended in `condition.wait()` (lock released) / holding the lock inside
the `for event in ...: await event.wait()` loop with the listed schedule
ids still to await / returned. -/
inductive WaiterPC where
  | idle
  | checking
  | waitingCond
  | looping (rest : List Nat)
  | done
deriving DecidableEq, Repr

structure OrchState where
  events : List (Nat × Bool)
  taskStarted : Bool
  lockHeld : Bool
  pc : WaiterPC
  everStarted : Bool
deriving DecidableEq, Repr

/-- `event.set()` on the event stored for `sid` (no-op when absent, which
is exactly the `event = ...get(schedule_id); if event: event.set()` flow —
an asyncio `Event` object is always truthy, so `if event:` only tests
presence). -/
def setEvent (events : List (Nat × Bool)) (sid : Nat) : List (Nat × Bool) :=
  events.map (fun p => if p.1 = sid then (p.1, true) else p)

/-- `on_task_started`: registers a fresh (unset) completion event for the
schedule id (overwriting any existing entry, as dict assignment does) and
sets `task_started`; `everStarted` is the history variable. -/
def onTaskStartedFn (s : OrchState) (sid : Nat) : OrchState :=
  { s with events := setAssoc s.events sid false, taskStarted := true, everStarted := true }

/-- `on_task_completed`: set the event for the schedule id if one is
registered, then clear `task_started`. -/
def onTaskCompletedFn (s : OrchState) (sid : Nat) : OrchState :=
  { s with events := setEvent s.events sid, taskStarted := false }

/-- `on_task_failed`: identical effect on this state. -/
def onTaskFailedFn (s : OrchState) (sid : Nat) : OrchState :=
  { s with events := setEvent s.events sid, taskStarted := false }

/-- One atomic transition of the cooperative system.  `on_task_started`
acquires the condition lock, so it can only run while the waiter does not
hold it; the terminal callbacks never touch the lock.  The waiter acquires
the lock, re-checks `task_started` after every wake-up (wake-ups are
over-approximated: any wake while the lock is free is allowed), snapshots
the registered schedule ids when the check passes, then awaits each event —
`await event.wait()` proceeds only once that event is set — and finally
releases the lock and returns. -/
inductive Step : OrchState → OrchState → Prop where
  | started {s : OrchState} (sid : Nat) :
      s.lockHeld = false → Step s (onTaskStartedFn s sid)
  | completed {s : OrchState} (sid : Nat) : Step s (onTaskCompletedFn s sid)
  | failed {s : OrchState} (sid : Nat) : Step s (onTaskFailedFn s sid)
  | acquire {s : OrchState} :
      s.pc = WaiterPC.idle → s.lockHeld = false →
      Step s { s with lockHeld := true, pc := WaiterPC.checking }
  | checkTrue {s : OrchState} :
      s.pc = WaiterPC.checking → s.taskStarted = true →
      Step s { s with pc := WaiterPC.looping (s.events.map Prod.fst) }
  | checkFalse {s : OrchState} :
      s.pc = WaiterPC.checking → s.taskStarted = false →
      Step s { s with pc := WaiterPC.waitingCond, lockHeld := false }
  | wake {s : OrchState} :
      s.pc = WaiterPC.waitingCond → s.lockHeld = false →
      Step s { s with pc := WaiterPC.checking, lockHeld := true }
  | loopNext {s : OrchState} (sid : Nat) (rest : List Nat) :
      s.pc = WaiterPC.looping (sid :: rest) →
      assocLookup s.events sid = some true →
      Step s { s with pc := WaiterPC.looping rest }
  | loopDone {s : OrchState} :
      s.pc = WaiterPC.looping [] →
      Step s { s with pc := WaiterPC.done, lockHeld := false }

/-- The freshly constructed orchestrator. -/
def initState : OrchState :=
  { events := [], taskStarted := false, lockHeld := false,
    pc := WaiterPC.idle, everStarted := false }

inductive Reachable : OrchState → Prop where
  | init : Reachable initState
  | step {s s' : OrchState} : Reachable s → Step s s' → Reachable s'

/-- The inductive invariant: registered schedule ids are distinct; the
waiter holds the lock while checking and while looping; every registered
event whose id is no longer in the loop's worklist has already been set;
and once the waiter is past the `task_started` check (or the flag is up),
a batch has started at some point. -/
def OrchInv (s : OrchState) : Prop :=
  (s.events.map Prod.fst).Nodup ∧
  ((s.pc = WaiterPC.checking ∨ ∃ l, s.pc = WaiterPC.looping l) → s.lockHeld = true) ∧
  (∀ l, s.pc = WaiterPC.looping l → ∀ p ∈ s.events, p.1 ∉ l → p.2 = true) ∧
  ((∃ l, s.pc = WaiterPC.looping l) → s.everStarted = true) ∧
  (s.pc = WaiterPC.done → s.everStarted = true) ∧
  (s.taskStarted = true → s.everStarted = true)

theorem mem_keys_setAssoc {α β : Type} [DecidableEq α] {l : List (α × β)} {k x : α}
    {v : β} (h : x ∈ (setAssoc l k v).map Prod.fst) :
    x ∈ l.map Prod.fst ∨ x = k := by
  induction l with
  | nil =>
    simp [setAssoc] at h
    exact Or.inr h
  | cons p ps ih =>
    by_cases hk : p.1 = k
    · simp only [setAssoc, if_pos hk, List.map_cons, List.mem_cons] at h
      rcases h with rfl | hm
      · exact Or.inr rfl
      · rw [List.map_cons]
        exact Or.inl (List.mem_cons_of_mem _ hm)
    · simp only [setAssoc, if_neg hk, List.map_cons, List.mem_cons] at h
      rcases h with rfl | hm
      · rw [List.map_cons]
        exact Or.inl (List.mem_cons_self _ _)
      · rcases ih hm with h1 | h2
        · rw [List.map_cons]
          exact Or.inl (List.mem_cons_of_mem _ h1)
        · exact Or.inr h2

theorem nodup_keys_setAssoc {α β : Type} [DecidableEq α] {l : List (α × β)}
    (h : (l.map Prod.fst).Nodup) (k : α) (v : β) :
    ((setAssoc l k v).map Prod.fst).Nodup := by
  induction l with
  | nil => simp [setAssoc]
  | cons p ps ih =>
    rw [List.map_cons] at h
    rcases List.nodup_cons.1 h with ⟨hp, hps⟩
    by_cases hk : p.1 = k
    · simp only [setAssoc, if_pos hk, List.map_cons, List.nodup_cons]
      exact ⟨by rw [← hk]; exact hp, hps⟩
    · simp only [setAssoc, if_neg hk, List.map_cons, List.nodup_cons]
      refine ⟨?_, ih hps⟩
      intro hmem
      rcases mem_keys_setAssoc hmem with hmem' | rfl
      · exact hp hmem'
      · exact hk rfl

theorem setEvent_keys (e : List (Nat × Bool)) (sid : Nat) :
    (setEvent e sid).map Prod.fst = e.map Prod.fst := by
  induction e with
  | nil => rfl
  | cons p ps ih =>
    simp only [setEvent, List.map_cons] at ih ⊢
    by_cases hp : p.1 = sid <;> simp [hp, ih]

theorem mem_setEvent {e : List (Nat × Bool)} {sid : Nat} {p : Nat × Bool}
    (h : p ∈ setEvent e sid) : p.2 = true ∨ p ∈ e := by
  rcases List.mem_map.1 h with ⟨q, hq, heq⟩
  by_cases hqs : q.1 = sid
  · left; rw [← heq]; simp [hqs]
  · right; rw [← heq]; simpa [hqs] using hq

theorem assocLookup_nodup_eq {e : List (Nat × Bool)}
    (hnd : (e.map Prod.fst).Nodup) {sid : Nat} {b : Bool}
    (h : assocLookup e sid = some b) :
    ∀ p ∈ e, p.1 = sid → p.2 = b := by
  induction e with
  | nil => intro p hp; cases hp
  | cons q qs ih =>
    intro p hp hps
    rw [List.map_cons] at hnd
    rcases List.nodup_cons.1 hnd with ⟨hq1, hq2⟩
    rcases List.mem_cons.1 hp with rfl | hm
    · simpa [assocLookup, hps] using h
    · by_cases hq : q.1 = sid
      · exfalso
        apply hq1
        rw [hq, ← hps]
        exact List.mem_map_of_mem Prod.fst hm
      · have h' : assocLookup qs sid = some b := by simpa [assocLookup, hq] using h
        exact ih hq2 h' p hm hps

theorem setEvent_of_lookup_none {e : List (Nat × Bool)} {sid : Nat}
    (h : assocLookup e sid = none) : setEvent e sid = e := by
  induction e with
  | nil => rfl
  | cons p ps ih =>
    by_cases hp : p.1 = sid
    · simp [assocLookup, hp] at h
    · have h' : assocLookup ps sid = none := by simpa [assocLookup, hp] using h
      simp only [setEvent, List.map_cons, if_neg hp]
      simpa [setEvent] using ih h'

theorem inv_init : OrchInv initState := by
  simp [OrchInv, initState]

theorem inv_step {s s' : OrchState} (hinv : OrchInv s) (hstep : Step s s') :
    OrchInv s' := by
  obtain ⟨hnd, hlock, hloop, hev1, hev2, hev3⟩ := hinv
  cases hstep with
  | started sid hl =>
    refine ⟨nodup_keys_setAssoc hnd sid false, ?_, ?_, ?_, ?_, ?_⟩
    · intro hpc
      exact absurd (hlock hpc) (by simp [hl])
    · intro l hpc
      exact absurd (hlock (Or.inr ⟨l, hpc⟩)) (by simp [hl])
    · intro _; rfl
    · intro _; rfl
    · intro _; rfl
  | completed sid =>
    refine ⟨by simpa [onTaskCompletedFn, setEvent_keys] using hnd, hlock, ?_, hev1, hev2, ?_⟩
    · intro l hpc p hp hnl
      rcases mem_setEvent hp with ht | hm
      · exact ht
      · exact hloop l hpc p hm hnl
    · intro h
      simp [onTaskCompletedFn] at h
  | failed sid =>
    refine ⟨by simpa [onTaskFailedFn, setEvent_keys] using hnd, hlock, ?_, hev1, hev2, ?_⟩
    · intro l hpc p hp hnl
      rcases mem_setEvent hp with ht | hm
      · exact ht
      · exact hloop l hpc p hm hnl
    · intro h
      simp [onTaskFailedFn] at h
  | acquire hpc hl =>
    refine ⟨hnd, fun _ => rfl, ?_, ?_, ?_, hev3⟩
    · intro l hl'; cases hl'
    · rintro ⟨l, hl'⟩; cases hl'
    · intro hd; cases hd
  | checkTrue hpc ht =>
    refine ⟨hnd, fun _ => hlock (Or.inl hpc), ?_, fun _ => hev3 ht, ?_, hev3⟩
    · intro l hl p hp hnl
      cases hl
      exact absurd (List.mem_map_of_mem Prod.fst hp) hnl
    · intro hd; cases hd
  | checkFalse hpc ht =>
    refine ⟨hnd, ?_, ?_, ?_, ?_, hev3⟩
    · rintro (hc | ⟨l, hc⟩) <;> cases hc
    · intro l hl; cases hl
    · rintro ⟨l, hl⟩; cases hl
    · intro hd; cases hd
  | wake hpc hl =>
    refine ⟨hnd, fun _ => rfl, ?_, ?_, ?_, hev3⟩
    · intro l hl'; cases hl'
    · rintro ⟨l, hl'⟩; cases hl'
    · intro hd; cases hd
  | loopNext sid rest hpc hlk =>
    refine ⟨hnd, fun _ => hlock (Or.inr ⟨_, hpc⟩), ?_, fun _ => hev1 ⟨_, hpc⟩, ?_, hev3⟩
    · intro l hl p hp hnl
      cases hl
      by_cases hps : p.1 = sid
      · exact assocLookup_nodup_eq hnd hlk p hp hps
      · refine hloop (sid :: rest) hpc p hp ?_
        intro hmem
        rcases List.mem_cons.1 hmem with h1 | h2
        · exact hps h1
        · exact hnl h2
    · intro hd; cases hd
  | loopDone hpc =>
    refine ⟨hnd, ?_, ?_, ?_, fun _ => hev1 ⟨[], hpc⟩, hev3⟩
    · rintro (hc | ⟨l, hc⟩) <;> cases hc
    · intro l hl; cases hl
    · rintro ⟨l, hl⟩; cases hl

theorem reachable_inv {s : OrchState} (h : Reachable s) : OrchInv s := by
  induction h with
  | init => exact inv_init
  | step _ hstep ih => exact inv_step ih hstep

/-- Claim C1: whenever the cooperative system takes the step on which
`wait_for_all_tasks` returns (the waiter's pc becomes `done`), every
schedule id registered in the completion-event map has its event set, and
a batch start (`task_started` observed true) has happened before — the
waiter cannot return without one. -/
theorem c1_wait_for_all_tasks_safety (s s' : OrchState)
    (hr : Reachable s) (hstep : Step s s')
    (hpre : s.pc ≠ WaiterPC.done) (hpost : s'.pc = WaiterPC.done) :
    (∀ p ∈ s'.events, p.2 = true) ∧ s'.everStarted = true := by
  obtain ⟨hnd, hlock, hloop, hev1, hev2, hev3⟩ := reachable_inv hr
  cases hstep with
  | started sid hl => exact absurd hpost hpre
  | completed sid => exact absurd hpost hpre
  | failed sid => exact absurd hpost hpre
  | acquire hpc hl => cases hpost
  | checkTrue hpc ht => cases hpost
  | checkFalse hpc ht => cases hpost
  | wake hpc hl => cases hpost
  | loopNext sid rest hpc hlk => cases hpost
  | loopDone hpc =>
    refine ⟨?_, hev1 ⟨[], hpc⟩⟩
    intro p hp
    exact hloop [] hpc p hp (by simp)

/-- Witness for C1: a concrete run — batch 0 starts, the waiter acquires
the lock and passes the check, the batch completes, the waiter drains its
worklist and returns. -/
theorem c1_wait_for_all_tasks_safety_witness :
    (∀ p ∈ (⟨[(0, true)], false, false, WaiterPC.done, true⟩ : OrchState).events,
      p.2 = true) ∧
    (⟨[(0, true)], false, false, WaiterPC.done, true⟩ : OrchState).everStarted = true := by
  have r1 : Reachable ⟨[(0, false)], true, false, WaiterPC.idle, true⟩ :=
    Reachable.step Reachable.init (Step.started 0 rfl)
  have r2 : Reachable ⟨[(0, false)], true, true, WaiterPC.checking, true⟩ :=
    Reachable.step r1 (Step.acquire rfl rfl)
  have r3 : Reachable ⟨[(0, false)], true, true, WaiterPC.looping [0], true⟩ :=
    Reachable.step r2 (Step.checkTrue rfl rfl)
  have r4 : Reachable ⟨[(0, true)], false, true, WaiterPC.looping [0], true⟩ :=
    Reachable.step r3 (Step.completed 0)
  have r5 : Reachable ⟨[(0, true)], false, true, WaiterPC.looping [], true⟩ :=
    Reachable.step r4 (Step.loopNext 0 [] rfl rfl)
  exact c1_wait_for_all_tasks_safety
    ⟨[(0, true)], false, true, WaiterPC.looping [], true⟩
    ⟨[(0, true)], false, false, WaiterPC.done, true⟩
    r5 (Step.loopDone rfl) (by decide) rfl

/-- Claim C10: a terminal callback for a schedule id with no registered
completion event (for example, arriving before `on_task_started` ran) is
harmless: the `dict.get` lookup yields nothing, the `event.set()` is
skipped (the event map is unchanged), `task_started` is still cleared to
false, and no exception is raised (the embedded handlers are total). -/
theorem c10_terminal_callback_without_event (s : OrchState) (sid : Nat)
    (h : assocLookup s.events sid = none) :
    onTaskCompletedFn s sid = { s with taskStarted := false } ∧
    onTaskFailedFn s sid = { s with taskStarted := false } := by
  have he : setEvent s.events sid = s.events := setEvent_of_lookup_none h
  exact ⟨by simp [onTaskCompletedFn, he], by simp [onTaskFailedFn, he]⟩

/-- Witness for C10 at a concrete state: a completion for schedule id 0
arrives while only schedule id 1 is registered. -/
theorem c10_terminal_callback_without_event_witness :
    onTaskCompletedFn ⟨[(1, true)], true, false, WaiterPC.idle, true⟩ 0
      = { (⟨[(1, true)], true, false, WaiterPC.idle, true⟩ : OrchState) with
            taskStarted := false } ∧
    onTaskFailedFn ⟨[(1, true)], true, false, WaiterPC.idle, true⟩ 0
      = { (⟨[(1, true)], true, false, WaiterPC.idle, true⟩ : OrchState) with
            taskStarted := false } :=
  c10_terminal_callback_without_event
    ⟨[(1, true)], true, false, WaiterPC.idle, true⟩ 0 (by decide)
